import Mathlib

/-!
Verification of the jheatmap data readers (`jheatmap.readers`): the tabular
reconciliation and matrix-assembly engine of `TsvMatrixReader.read` (key
inference, hash index building, dense matrix fill) and the wide-format
variant `CdmMatrixReader.read`.

The network fetch and line tokenizing (`splitCSV`) are external collaborators:
the embedding starts from the parsed header and record sequences, exactly the
state the JavaScript success callback reaches after its line-splitting loop.

JavaScript dynamic values are embedded as follows:
* a field value is `Option String`: `some s` is a JS string, `none` is
  JS `undefined` (an out-of-range array read, or a header slot that the
  code explicitly assigned `undefined`);
* a cell-table entry is `Option Record`, `none` being a JS `null` record;
* object-property access coerces `undefined` to the string key
  `"undefined"` (`jsStr`), while calling `.toString()` on `undefined`
  throws a TypeError, which the embedding surfaces as an `Option.none`
  result of the whole assembly (the thrown exception escapes the callback
  before `ready` is ever set).
-/

namespace JHeatmap

/-- A JS field value: `some s` is a string, `none` is `undefined`. -/
abbrev FieldVal := Option String

/-- A parsed record: an ordered sequence of field values. -/
abbrev Record := List FieldVal

/-- JS property-key coercion: `undefined` used as an object key becomes the
string `"undefined"`; a string is used as-is. -/
def jsStr (v : FieldVal) : String :=
  v.getD "undefined"

/-- JS indexed read `r[k]` where `k` itself may be `undefined`: reading with
an `undefined` key, or out of range, yields `undefined`. -/
def jsGet (r : Record) : Option Nat → FieldVal
  | none => none
  | some n =>
    match r.get? n with
    | none => none
    | some f => f

/-- JS indexed read with a definite index. -/
def jsGetAt (r : Record) (n : Nat) : FieldVal :=
  jsGet r (some n)

/-- JS indexed write `l[j] := v`: in range it overwrites, past the end it
extends the array (holes read back as `undefined`/the pad element). -/
def jsSetPad (pad : α) (l : List α) (j : Nat) (v : α) : List α :=
  if j < l.length then l.set j v
  else l ++ List.replicate (j - l.length) pad ++ [v]

/-- jQuery's `$.inArray(x, l)`: index of the first strictly-equal element,
with `none` standing for `-1`. -/
def jsInArray (x : FieldVal) : List FieldVal → Option Nat
  | [] => none
  | y :: ys => if y = x then some 0 else (jsInArray x ys).map (· + 1)

/-- A JS object used as a string-keyed hash: assignment prepends, lookup
returns the most recent binding. -/
abbrev Hash := List (String × Nat)

/-- Hash read `h[k]`: the most recently assigned binding, if any. -/
def hGet (h : Hash) (k : String) : Option Nat :=
  (h.find? (fun e => e.1 == k)).map (·.2)

/-- Hash assignment `h[k] = v`. -/
def hPut (h : Hash) (k : String) (v : Nat) : Hash :=
  (k, v) :: h

/-- The recognized data options of the heatmap configuration
(`heatmap.options.data`): whether a row / column table was supplied
(`rows` / `cols` defined), and the optional `rows_annotations` /
`cols_annotations` field-index lists. -/
structure DataOptions where
  rowsDeclared : Bool
  colsDeclared : Bool
  rowsAnnIdx : Option (List Nat)
  colsAnnIdx : Option (List Nat)
deriving Repr, DecidableEq

/-- The heatmap slices touched by the readers: the row axis, column axis and
cell tables (`header`, `values`) plus the cells' `ready` flag. -/
structure Heatmap where
  rowsHeader : List FieldVal
  rowsValues : List Record
  colsHeader : List FieldVal
  colsValues : List Record
  cellsHeader : List FieldVal
  cellsValues : List (Option Record)
  ready : Bool
deriving Repr, DecidableEq

/-- The key-deduction loop of `TsvMatrixReader.read` (declared mode, lines
123-129 for rows and 154-162 for columns): scan the axis header in order;
at each field compute `$.inArray(field, cellsHeader)`; for the column
search a found index equal to `skip` (the row's `valuesRowKey`) does not
break the loop. The running `valuesKey` variable is carried (`last`), since
JS leaves its last assignment in place when the loop falls through.
Returns `(axisKey, valuesKey)`. -/
def inferDeclaredAux (cells : List FieldVal) (skip : Option Nat) :
    List FieldVal → Nat → Option Nat → Option Nat × Option Nat
  | [], _, last => (none, last)
  | f :: fs, i, _ =>
    match jsInArray f cells with
    | some v =>
      if skip = some v then inferDeclaredAux cells skip fs (i + 1) (some v)
      else (some i, some v)
    | none => inferDeclaredAux cells skip fs (i + 1) none

/-- The `rows_annotations` / `cols_annotations` relocation loop (lines
139-142 / 172-175): push each designated cell-header field onto the fresh
axis header, then blank that cell-header slot with `undefined`. -/
def relocateAux : List Nat → List FieldVal → List FieldVal → List FieldVal × List FieldVal
  | [], axisHdr, cells => (axisHdr, cells)
  | j :: js, axisHdr, cells =>
    relocateAux js (axisHdr ++ [jsGetAt cells j]) (jsSetPad none cells j none)

/-- The outcome of the key-deduction phase of `TsvMatrixReader.read`
(lines 116-181): the axis-header and cell-header key positions for both
axes, and the (possibly rewritten) headers. -/
structure KeyInference where
  rowKey : Option Nat
  valuesRowKey : Option Nat
  colKey : Option Nat
  valuesColKey : Option Nat
  rowsHeader : List FieldVal
  colsHeader : List FieldVal
  cellsHeader : List FieldVal
deriving Repr, DecidableEq

/-- Key deduction of `TsvMatrixReader.read` (lines 120-181), rows first then
columns, each in one of three shapes: declared axis table (search the axis
header against the cell header), discovery with configured annotation
indices (relocate those cell-header fields into a fresh axis header, key =
first index), or the positional default (`valuesRowKey = 1`,
`valuesColKey = 0`, the single field becoming the sole axis header). -/
def inferKeys (o : DataOptions) (rowsHeader0 colsHeader0 cellsHeader0 : List FieldVal) :
    KeyInference :=
  let r :=
    if o.rowsDeclared then
      (inferDeclaredAux cellsHeader0 none rowsHeader0 0 none, rowsHeader0, cellsHeader0)
    else
      match o.rowsAnnIdx with
      | some ann =>
        let p := relocateAux ann [] cellsHeader0
        ((some 0, ann.head?), p.1, p.2)
      | none => ((some 0, some 1), [jsGetAt cellsHeader0 1], cellsHeader0)
  let rowKey := r.1.1
  let valuesRowKey := r.1.2
  let rowsHeader1 := r.2.1
  let cellsHeader1 := r.2.2
  let c :=
    if o.colsDeclared then
      (inferDeclaredAux cellsHeader1 valuesRowKey colsHeader0 0 none, colsHeader0, cellsHeader1)
    else
      match o.colsAnnIdx with
      | some ann =>
        let p := relocateAux ann [] cellsHeader1
        ((some 0, ann.head?), p.1, p.2)
      | none => ((some 0, some 0), [jsGetAt cellsHeader1 0], cellsHeader1)
  { rowKey := rowKey, valuesRowKey := valuesRowKey,
    colKey := c.1.1, valuesColKey := c.1.2,
    rowsHeader := rowsHeader1, colsHeader := c.2.1, cellsHeader := c.2.2 }

/-- Declared-mode hash building (lines 189-191 / 193-195):
`hash[(axisValues[i][key]).toString()] = i` for each axis record in order.
`.toString()` on an `undefined` field (key out of range, or `key` itself
undefined after a failed search) throws, modelled by `none`. -/
def buildDeclaredHash (key : Option Nat) : List Record → Nat → Hash → Option Hash
  | [], _, h => some h
  | r :: rs, i, h =>
    match jsGet r key with
    | none => none
    | some s => buildDeclaredHash key rs (i + 1) (hPut h s i)

/-- The designated axis-record field indices used in the discovery pass
(lines 204-208 / 221-225): the configured annotation index list if present,
otherwise the singleton `[valuesKey]`. -/
def annIndices (ann : Option (List Nat)) (vk : Option Nat) : List (Option Nat) :=
  match ann with
  | some a => a.map some
  | none => [vk]

/-- The mutable state of the discovery pass: both hashes and both axis
record lists. -/
structure DiscSt where
  rowHash : Hash
  colHash : Hash
  rowsValues : List Record
  colsValues : List Record
deriving Repr, DecidableEq

/-- One non-null record of the discovery pass (lines 202-235): stringify the
row-key field (throwing on `undefined`); if unseen, bind it to the next row
position and append an axis record built from the designated fields; then
the same for the column key. -/
def discRecord (rowAnn colAnn : Option (List Nat)) (vrk vck : Option Nat)
    (st : DiscSt) (v : Record) : Option DiscSt :=
  match jsGet v vrk with
  | none => none
  | some rk =>
    let st1 :=
      if hGet st.rowHash rk = none then
        { st with rowHash := hPut st.rowHash rk st.rowsValues.length,
                  rowsValues := st.rowsValues ++ [(annIndices rowAnn vrk).map (jsGet v)] }
      else st
    match jsGet v vck with
    | none => none
    | some ck =>
      if hGet st1.colHash ck = none then
        some { st1 with colHash := hPut st1.colHash ck st1.colsValues.length,
                        colsValues := st1.colsValues ++ [(annIndices colAnn vck).map (jsGet v)] }
      else some st1

/-- The discovery pass (lines 198-237): one linear scan of the cell-table
records, skipping `null` entries, building both hashes and both axis record
lists in the same pass. -/
def discLoop (rowAnn colAnn : Option (List Nat)) (vrk vck : Option Nat) :
    List (Option Record) → DiscSt → Option DiscSt
  | [], st => some st
  | none :: rest, st => discLoop rowAnn colAnn vrk vck rest st
  | some v :: rest, st =>
    match discRecord rowAnn colAnn vrk vck st v with
    | none => none
    | some st' => discLoop rowAnn colAnn vrk vck rest st'

/-- Index building of `TsvMatrixReader.read` (lines 183-238): declared
hashes when both axis tables were supplied (line 187), otherwise the
discovery pass over the cell table. Returns the two hashes and the
(possibly extended) axis record lists. -/
def buildIndices (o : DataOptions) (ki : KeyInference) (hm : Heatmap) :
    Option (Hash × Hash × List Record × List Record) :=
  if o.rowsDeclared && o.colsDeclared then
    match buildDeclaredHash ki.rowKey hm.rowsValues 0 [],
          buildDeclaredHash ki.colKey hm.colsValues 0 [] with
    | some rh, some ch => some (rh, ch, hm.rowsValues, hm.colsValues)
    | _, _ => none
  else
    (discLoop o.rowsAnnIdx o.colsAnnIdx ki.valuesRowKey ki.valuesColKey hm.cellsValues
        ⟨[], [], hm.rowsValues, hm.colsValues⟩).map
      (fun st => (st.rowHash, st.colHash, st.rowsValues, st.colsValues))

/-- One cell-table entry of the fill pass (lines 249-261): a `null` entry is
skipped; otherwise both hashes are read with the property-coerced key
strings, and only when both lookups hit is the record stored at
`rowIndex * cl + colIndex` (a missed lookup makes the JS offset `NaN`,
whose write touches no linear position). -/
def fillCell (rh ch : Hash) (vrk vck : Option Nat) (cl : Nat)
    (acc : List (Option Record)) : Option Record → List (Option Record)
  | none => acc
  | some v =>
    match hGet rh (jsStr (jsGet v vrk)), hGet ch (jsStr (jsGet v vck)) with
    | some ri, some ci => jsSetPad none acc (ri * cl + ci) (some v)
    | some _, none => acc
    | none, _ => acc

/-- The fill pass over all cell-table entries (lines 249-261). -/
def fillLoop (rh ch : Hash) (vrk vck : Option Nat) (cl : Nat)
    (cs : List (Option Record)) (acc : List (Option Record)) : List (Option Record) :=
  cs.foldl (fillCell rh ch vrk vck cl) acc

/-- The matrix-assembly path of `TsvMatrixReader.read` (the
`!orderedValues` branch of the success callback, lines 116-269): key
deduction, index building, allocation of the all-`null` dense array of
length `rows * cols` (lines 240-244), the fill pass, and finally
`cells.ready = true`. A `none` result is a thrown TypeError: the callback
aborts before `ready` is ever set. -/
def tsvRead (o : DataOptions) (hm : Heatmap) : Option Heatmap :=
  let ki := inferKeys o hm.rowsHeader hm.colsHeader hm.cellsHeader
  match buildIndices o ki hm with
  | none => none
  | some (rh, ch, rv, cv) =>
    some { rowsHeader := ki.rowsHeader, rowsValues := rv,
           colsHeader := ki.colsHeader, colsValues := cv,
           cellsHeader := ki.cellsHeader,
           cellsValues := fillLoop rh ch ki.valuesRowKey ki.valuesColKey cv.length
             hm.cellsValues (List.replicate (rv.length * cv.length) none),
           ready := true }

/-- The record loop of `CdmMatrixReader.read` (lines 339-344): per record,
append `[record[0]]` to the row axis and, for each of the `cl` columns,
append the singleton `[record[col + 1]]` to the dense cell list. A `null`
record throws on `record[0]`. -/
def cdmLoop (cl : Nat) : List (Option Record) → List Record → List (Option Record) →
    Option (List Record × List (Option Record))
  | [], rv, cells => some (rv, cells)
  | none :: _, _, _ => none
  | some r :: rest, rv, cells =>
    cdmLoop cl rest (rv ++ [[jsGetAt r 0]])
      (cells ++ (List.range cl).map (fun col => (some [jsGet r (some (col + 1))] : Option Record)))

/-- The wide-format assembly of `CdmMatrixReader.read` (lines 332-351):
one column per cell-header field (header `["Column"]`), one row per record
(header `["Row"]`), cell header replaced by `["Value"]`, then
`cells.ready = true`. -/
def cdmRead (hm : Heatmap) : Option Heatmap :=
  let colsValues := hm.colsValues ++ hm.cellsHeader.map (fun f => ([f] : Record))
  match cdmLoop colsValues.length hm.cellsValues hm.rowsValues [] with
  | none => none
  | some (rv, cells) =>
    some { rowsHeader := [some "Row"], rowsValues := rv,
           colsHeader := [some "Column"], colsValues := colsValues,
           cellsHeader := [some "Value"], cellsValues := cells,
           ready := true }

/-- The `rowCount` of the reconciled matrix. -/
def rowCount (hm : Heatmap) : Nat := hm.rowsValues.length

/-- The `columnCount` of the reconciled matrix. -/
def columnCount (hm : Heatmap) : Nat := hm.colsValues.length

/-- The read interface `valueAt(i, j)`: the record at linear offset
`i * columnCount + j`, or the missing sentinel. -/
def valueAt (hm : Heatmap) (i j : Nat) : Option Record :=
  (hm.cellsValues.get? (i * columnCount hm + j)).getD none

end JHeatmap

namespace JHeatmap

/-! ### Basic lemmas about the JS primitives -/

theorem hGet_hPut (h : Hash) (k k' : String) (v : Nat) :
    hGet (hPut h k v) k' = if k' = k then some v else hGet h k' := by
  by_cases hk : k' = k
  · subst hk; simp [hGet, hPut, List.find?]
  · simp only [hGet, hPut, List.find?]
    have : (k == k') = false := by
      simp [beq_iff_eq]; exact fun hh => hk hh.symm
    simp [this, hk]

theorem hGet_nil (k : String) : hGet [] k = none := rfl

/-- Every element of a JS indexed write is an old element, the pad, or the
written value. -/
theorem mem_jsSetPad {pad v x : α} {l : List α} {j : Nat}
    (hx : x ∈ jsSetPad pad l j v) : x ∈ l ∨ x = pad ∨ x = v := by
  unfold jsSetPad at hx
  split at hx
  · rcases List.mem_or_eq_of_mem_set hx with h | h
    · exact Or.inl h
    · exact Or.inr (Or.inr h)
  · rcases List.mem_append.1 hx with h | h
    · rcases List.mem_append.1 h with h | h
      · exact Or.inl h
      · exact Or.inr (Or.inl (List.eq_of_mem_replicate h))
    · exact Or.inr (Or.inr (List.mem_singleton.1 h))

theorem jsSetPad_length {l : List α} {j : Nat} (pad v : α) (h : j < l.length) :
    (jsSetPad pad l j v).length = l.length := by
  simp [jsSetPad, h]

theorem jsSetPad_get?_eq {l : List α} {j : Nat} (pad v : α) (h : j < l.length) :
    (jsSetPad pad l j v).get? j = some v := by
  simp [jsSetPad, h, List.get?_set_eq_of_lt v h]

theorem jsSetPad_get?_ne {l : List α} {i j : Nat} (pad v : α) (h : j < l.length)
    (hne : j ≠ i) : (jsSetPad pad l j v).get? i = l.get? i := by
  unfold jsSetPad
  rw [if_pos h]
  exact List.get?_set_ne v l hne

/-- The linear offset `ri * cl + ci` of an in-range position is in range. -/
theorem offset_lt {ri ci rl cl : Nat} (hri : ri < rl) (hci : ci < cl) :
    ri * cl + ci < rl * cl := by
  calc ri * cl + ci < ri * cl + cl := by omega
    _ = (ri + 1) * cl := by ring
    _ ≤ rl * cl := Nat.mul_le_mul_right _ hri

/-- Two in-range positions with the same linear offset coincide. -/
theorem offset_inj {ri ci ri' ci' cl : Nat} (hci : ci < cl) (hci' : ci' < cl)
    (h : ri * cl + ci = ri' * cl + ci') : ri = ri' ∧ ci = ci' := by
  have h' : cl * ri + ci = cl * ri' + ci' := by
    rw [Nat.mul_comm cl ri, Nat.mul_comm cl ri']; exact h
  have e1 : (cl * ri + ci) % cl = ci % cl := Nat.mul_add_mod cl ri ci
  have e2 : (cl * ri' + ci') % cl = ci' % cl := Nat.mul_add_mod cl ri' ci'
  rw [h'] at e1
  rw [e2] at e1
  rw [Nat.mod_eq_of_lt hci', Nat.mod_eq_of_lt hci] at e1
  have hc : ci = ci' := e1.symm
  subst hc
  have hcl : 0 < cl := Nat.lt_of_le_of_lt (Nat.zero_le _) hci
  have hm : ri * cl = ri' * cl := by omega
  exact ⟨Nat.eq_of_mul_eq_mul_right hcl hm, rfl⟩

/-! ### Boundedness of the position indices -/

/-- Every position stored in the hash is below `n`. -/
def HashBnd (h : Hash) (n : Nat) : Prop :=
  ∀ k p, hGet h k = some p → p < n

theorem hashBnd_nil (n : Nat) : HashBnd [] n := by
  intro k p hk
  simp [hGet, List.find?] at hk

theorem buildDeclaredHash_bounded (key : Option Nat) :
    ∀ (vs : List Record) (i : Nat) (h0 h : Hash),
      buildDeclaredHash key vs i h0 = some h →
      HashBnd h0 i → HashBnd h (i + vs.length)
  | [], i, h0, h, hb, h0b => by
    simp [buildDeclaredHash] at hb
    subst hb
    intro k p hk
    exact Nat.lt_of_lt_of_le (h0b k p hk) (by simp)
  | r :: rs, i, h0, h, hb, h0b => by
    simp only [buildDeclaredHash] at hb
    cases hr : jsGet r key with
    | none => rw [hr] at hb; exact absurd hb (by simp)
    | some s =>
      rw [hr] at hb
      have hstep : HashBnd (hPut h0 s i) (i + 1) := by
        intro k p hk
        rw [hGet_hPut] at hk
        split at hk
        · cases hk; omega
        · exact Nat.lt_succ_of_lt (h0b k p hk)
      have := buildDeclaredHash_bounded key rs (i + 1) (hPut h0 s i) h hb hstep
      intro k p hk
      have := this k p hk
      simp only [List.length_cons]
      omega

/-- The discovery-pass invariant: both hashes only hold positions below the
current axis-record counts. -/
def DiscInv (st : DiscSt) : Prop :=
  HashBnd st.rowHash st.rowsValues.length ∧ HashBnd st.colHash st.colsValues.length

theorem discRecord_inv {rowAnn colAnn : Option (List Nat)} {vrk vck : Option Nat}
    {st st' : DiscSt} {v : Record}
    (hinv : DiscInv st) (h : discRecord rowAnn colAnn vrk vck st v = some st') :
    DiscInv st' := by
  unfold discRecord at h
  cases hr : jsGet v vrk with
  | none => rw [hr] at h; exact absurd h (by simp)
  | some rk =>
    rw [hr] at h
    simp only at h
    set st1 := if hGet st.rowHash rk = none then
        { st with rowHash := hPut st.rowHash rk st.rowsValues.length,
                  rowsValues := st.rowsValues ++ [(annIndices rowAnn vrk).map (jsGet v)] }
      else st with hst1
    have hinv1 : DiscInv st1 := by
      rw [hst1]
      split
      · refine ⟨?_, hinv.2⟩
        intro k p hk
        simp only at hk ⊢
        rw [hGet_hPut] at hk
        split at hk
        · cases hk; simp
        · have := hinv.1 k p hk
          simp only [List.length_append, List.length_singleton]
          omega
      · exact hinv
    cases hc : jsGet v vck with
    | none => rw [hc] at h; exact absurd h (by simp)
    | some ck =>
      rw [hc] at h
      simp only at h
      split at h
      · simp only [Option.some.injEq] at h
        subst h
        refine ⟨hinv1.1, ?_⟩
        intro k p hk
        simp only at hk ⊢
        rw [hGet_hPut] at hk
        split at hk
        · cases hk; simp
        · have := hinv1.2 k p hk
          simp only [List.length_append, List.length_singleton]
          omega
      · simp only [Option.some.injEq] at h
        subst h
        exact hinv1

theorem discLoop_inv {rowAnn colAnn : Option (List Nat)} {vrk vck : Option Nat} :
    ∀ {cs : List (Option Record)} {st st' : DiscSt},
      DiscInv st → discLoop rowAnn colAnn vrk vck cs st = some st' → DiscInv st'
  | [], st, st', hinv, h => by
    simp [discLoop] at h; exact h ▸ hinv
  | none :: rest, st, st', hinv, h => by
    simp only [discLoop] at h
    exact discLoop_inv hinv h
  | some v :: rest, st, st', hinv, h => by
    simp only [discLoop] at h
    cases hr : discRecord rowAnn colAnn vrk vck st v with
    | none => rw [hr] at h; exact absurd h (by simp)
    | some st1 =>
      rw [hr] at h
      exact discLoop_inv (discRecord_inv hinv hr) h

/-- Whatever index-building strategy ran, the resulting hashes are bounded
by the resulting axis-record counts. -/
theorem buildIndices_bounded {o : DataOptions} {ki : KeyInference} {hm : Heatmap}
    {rh ch : Hash} {rv cv : List Record}
    (h : buildIndices o ki hm = some (rh, ch, rv, cv)) :
    HashBnd rh rv.length ∧ HashBnd ch cv.length := by
  unfold buildIndices at h
  split at h
  · cases hr : buildDeclaredHash ki.rowKey hm.rowsValues 0 [] with
    | none => rw [hr] at h; exact absurd h (by simp)
    | some rh' =>
      cases hc : buildDeclaredHash ki.colKey hm.colsValues 0 [] with
      | none => rw [hr, hc] at h; exact absurd h (by simp)
      | some ch' =>
        rw [hr, hc] at h
        simp only [Option.some.injEq, Prod.mk.injEq] at h
        obtain ⟨rfl, rfl, rfl, rfl⟩ := h
        refine ⟨?_, ?_⟩
        · simpa using buildDeclaredHash_bounded ki.rowKey hm.rowsValues 0 [] _ hr
            (hashBnd_nil 0)
        · simpa using buildDeclaredHash_bounded ki.colKey hm.colsValues 0 [] _ hc
            (hashBnd_nil 0)
  · cases hd : discLoop o.rowsAnnIdx o.colsAnnIdx ki.valuesRowKey ki.valuesColKey
      hm.cellsValues ⟨[], [], hm.rowsValues, hm.colsValues⟩ with
    | none => rw [hd] at h; exact absurd h (by simp)
    | some st =>
      rw [hd] at h
      simp only [Option.map_some', Option.some.injEq, Prod.mk.injEq] at h
      obtain ⟨rfl, rfl, rfl, rfl⟩ := h
      exact discLoop_inv ⟨hashBnd_nil _, hashBnd_nil _⟩ hd

end JHeatmap

namespace JHeatmap

/-! ### The fill pass -/

theorem fillCell_length {rh ch : Hash} {vrk vck : Option Nat} {cl rl : Nat}
    {acc : List (Option Record)} {x : Option Record}
    (hrh : HashBnd rh rl) (hch : HashBnd ch cl) (hacc : acc.length = rl * cl) :
    (fillCell rh ch vrk vck cl acc x).length = rl * cl := by
  cases x with
  | none => simpa [fillCell] using hacc
  | some v =>
    simp only [fillCell]
    cases hri : hGet rh (jsStr (jsGet v vrk)) with
    | none => simpa using hacc
    | some ri =>
      cases hci : hGet ch (jsStr (jsGet v vck)) with
      | none => simpa using hacc
      | some ci =>
        have hlt : ri * cl + ci < acc.length := by
          rw [hacc]; exact offset_lt (hrh _ _ hri) (hch _ _ hci)
        simp only []
        rw [jsSetPad_length _ _ hlt]
        exact hacc

theorem fillLoop_length {rh ch : Hash} {vrk vck : Option Nat} {cl rl : Nat}
    (hrh : HashBnd rh rl) (hch : HashBnd ch cl) :
    ∀ (cs : List (Option Record)) (acc : List (Option Record)),
      acc.length = rl * cl → (fillLoop rh ch vrk vck cl cs acc).length = rl * cl
  | [], _, hacc => hacc
  | x :: rest, acc, hacc =>
    fillLoop_length hrh hch rest (fillCell rh ch vrk vck cl acc x)
      (fillCell_length hrh hch hacc)

theorem fillLoop_entries {rh ch : Hash} {vrk vck : Option Nat} {cl : Nat}
    {src : List (Option Record)} :
    ∀ (cs : List (Option Record)) (acc : List (Option Record)),
      (∀ x ∈ acc, x = none ∨ x ∈ src) → (∀ x ∈ cs, x ∈ src) →
      ∀ x ∈ fillLoop rh ch vrk vck cl cs acc, x = none ∨ x ∈ src
  | [], acc, hacc, _, x, hx => hacc x hx
  | c :: rest, acc, hacc, hcs, x, hx => by
    refine fillLoop_entries rest (fillCell rh ch vrk vck cl acc c) ?_
      (fun y hy => hcs y (List.mem_cons_of_mem _ hy)) x hx
    intro y hy
    cases c with
    | none => exact hacc y hy
    | some v =>
      simp only [fillCell] at hy
      cases hri : hGet rh (jsStr (jsGet v vrk)) with
      | none => rw [hri] at hy; exact hacc y hy
      | some ri =>
        rw [hri] at hy
        cases hci : hGet ch (jsStr (jsGet v vck)) with
        | none => rw [hci] at hy; exact hacc y hy
        | some ci =>
          rw [hci] at hy
          simp only [] at hy
          rcases mem_jsSetPad hy with h | h | h
          · exact hacc y h
          · exact Or.inl h
          · exact Or.inr (h ▸ hcs (some v) (List.mem_cons_self _ _))

/-- C1. For every completed assembly (declared or discovery mode), the dense
values array has length `rowCount * columnCount`, and every `valueAt (i, j)`
with `i < rowCount`, `j < columnCount` is either the missing sentinel or one
of the original cell-table records: no linear offset is left uninitialized. -/
theorem claim1_dense_matrix_complete (o : DataOptions) (hm out : Heatmap)
    (hout : tsvRead o hm = some out) :
    out.cellsValues.length = rowCount out * columnCount out ∧
    ∀ i j, i < rowCount out → j < columnCount out →
      valueAt out i j = none ∨ valueAt out i j ∈ hm.cellsValues := by
  simp only [tsvRead] at hout
  cases hidx : buildIndices o (inferKeys o hm.rowsHeader hm.colsHeader hm.cellsHeader) hm with
  | none => rw [hidx] at hout; exact absurd hout (by simp)
  | some q =>
    obtain ⟨rh, ch, rv, cv⟩ := q
    rw [hidx] at hout
    simp only [Option.some.injEq] at hout
    subst hout
    obtain ⟨hbr, hbc⟩ := buildIndices_bounded hidx
    have hlen : (fillLoop rh ch
        (inferKeys o hm.rowsHeader hm.colsHeader hm.cellsHeader).valuesRowKey
        (inferKeys o hm.rowsHeader hm.colsHeader hm.cellsHeader).valuesColKey cv.length
        hm.cellsValues (List.replicate (rv.length * cv.length) none)).length
        = rv.length * cv.length :=
      fillLoop_length hbr hbc hm.cellsValues _ (by simp)
    refine ⟨by simpa [rowCount, columnCount] using hlen, ?_⟩
    intro i j hi hj
    simp only [rowCount, columnCount] at hi hj ⊢
    have hoff : i * cv.length + j < rv.length * cv.length := offset_lt hi hj
    have hget : ∃ x, (fillLoop rh ch
        (inferKeys o hm.rowsHeader hm.colsHeader hm.cellsHeader).valuesRowKey
        (inferKeys o hm.rowsHeader hm.colsHeader hm.cellsHeader).valuesColKey cv.length
        hm.cellsValues (List.replicate (rv.length * cv.length) none)).get?
          (i * cv.length + j) = some x := by
      cases hx : (fillLoop rh ch
          (inferKeys o hm.rowsHeader hm.colsHeader hm.cellsHeader).valuesRowKey
          (inferKeys o hm.rowsHeader hm.colsHeader hm.cellsHeader).valuesColKey cv.length
          hm.cellsValues (List.replicate (rv.length * cv.length) none)).get?
            (i * cv.length + j) with
      | none =>
        rw [List.get?_eq_none] at hx
        rw [hlen] at hx
        omega
      | some x => exact ⟨x, rfl⟩
    obtain ⟨x, hx⟩ := hget
    have hmem : x = none ∨ x ∈ hm.cellsValues := by
      refine fillLoop_entries hm.cellsValues _ ?_ (fun y hy => hy) x (List.get?_mem hx)
      intro y hy
      exact Or.inl (List.eq_of_mem_replicate hy)
    simp only [valueAt, columnCount]
    rw [hx]
    simpa using hmem

end JHeatmap

namespace JHeatmap

/-! ### Concrete example inputs -/

/-- Discovery-mode options: no axis tables, no configured annotation
index lists. -/
def exDiscO : DataOptions := ⟨false, false, none, none⟩

/-- A discovery-mode input: three cell records over two row keys and two
column keys. -/
def exDiscHm : Heatmap :=
  { rowsHeader := [], rowsValues := [], colsHeader := [], colsValues := [],
    cellsHeader := [some "c", some "r", some "v"],
    cellsValues := [some [some "c1", some "r1", some "5"],
                    some [some "c1", some "r2", some "6"],
                    some [some "c2", some "r1", some "7"]],
    ready := false }

/-- The assembled output for `exDiscHm`. -/
def exDiscOut : Heatmap :=
  { rowsHeader := [some "r"], rowsValues := [[some "r1"], [some "r2"]],
    colsHeader := [some "c"], colsValues := [[some "c1"], [some "c2"]],
    cellsHeader := [some "c", some "r", some "v"],
    cellsValues := [some [some "c1", some "r1", some "5"],
                    some [some "c2", some "r1", some "7"],
                    some [some "c1", some "r2", some "6"],
                    none],
    ready := true }

/-- Witness for C1: the concrete discovery-mode assembly satisfies the
length invariant. -/
theorem claim1_dense_matrix_complete_witness :
    tsvRead exDiscO exDiscHm = some exDiscOut ∧
    exDiscOut.cellsValues.length = rowCount exDiscOut * columnCount exDiscOut :=
  ⟨rfl, (claim1_dense_matrix_complete exDiscO exDiscHm exDiscOut rfl).1⟩

/-! ### C2: records whose key misses the index are silently dropped -/

/-- A cell record whose row-key or column-key lookup misses leaves the
dense array untouched (the JS offset is `NaN`). -/
theorem fillCell_miss {rh ch : Hash} {vrk vck : Option Nat} {cl : Nat}
    {acc : List (Option Record)} {v : Record}
    (h : hGet rh (jsStr (jsGet v vrk)) = none ∨ hGet ch (jsStr (jsGet v vck)) = none) :
    fillCell rh ch vrk vck cl acc (some v) = acc := by
  simp only [fillCell]
  rcases h with h | h
  · rw [h]
  · rw [h]
    cases hGet rh (jsStr (jsGet v vrk)) <;> rfl

theorem fillLoop_append (rh ch : Hash) (vrk vck : Option Nat) (cl : Nat)
    (l1 l2 : List (Option Record)) (acc : List (Option Record)) :
    fillLoop rh ch vrk vck cl (l1 ++ l2) acc
      = fillLoop rh ch vrk vck cl l2 (fillLoop rh ch vrk vck cl l1 acc) := by
  simp [fillLoop, List.foldl_append]

/-- C2. Declared mode: a cell record whose stringified row-key or
column-key has no entry in the corresponding position index is silently
dropped — assembly completes with `ready = true`, and the assembled output
is identical to the one obtained with that record replaced by a `null`
entry (so the record modifies no valid linear offset, and the offsets it
would have addressed stay at the missing sentinel). -/
theorem claim2_unresolved_record_dropped (o : DataOptions) (hm : Heatmap)
    (pre post : List (Option Record)) (v : Record) (rh ch : Hash)
    (rv cv : List Record)
    (hrd : o.rowsDeclared = true) (hcd : o.colsDeclared = true)
    (hcv : hm.cellsValues = pre ++ some v :: post)
    (hidx : buildIndices o (inferKeys o hm.rowsHeader hm.colsHeader hm.cellsHeader) hm
      = some (rh, ch, rv, cv))
    (hmiss :
      hGet rh (jsStr (jsGet v
        (inferKeys o hm.rowsHeader hm.colsHeader hm.cellsHeader).valuesRowKey)) = none ∨
      hGet ch (jsStr (jsGet v
        (inferKeys o hm.rowsHeader hm.colsHeader hm.cellsHeader).valuesColKey)) = none) :
    (∃ out, tsvRead o hm = some out ∧ out.ready = true) ∧
    tsvRead o hm = tsvRead o { hm with cellsValues := pre ++ none :: post } := by
  have hidx' : buildIndices o (inferKeys o hm.rowsHeader hm.colsHeader hm.cellsHeader)
      { hm with cellsValues := pre ++ none :: post } = some (rh, ch, rv, cv) := by
    unfold buildIndices at hidx ⊢
    rw [hrd, hcd] at hidx ⊢
    simpa using hidx
  constructor
  · simp only [tsvRead]
    rw [hidx]
    exact ⟨_, rfl, rfl⟩
  · simp only [tsvRead]
    rw [hidx, hidx']
    dsimp only
    have hfill : fillLoop rh ch
        (inferKeys o hm.rowsHeader hm.colsHeader hm.cellsHeader).valuesRowKey
        (inferKeys o hm.rowsHeader hm.colsHeader hm.cellsHeader).valuesColKey cv.length
        (pre ++ some v :: post) (List.replicate (rv.length * cv.length) none)
      = fillLoop rh ch
        (inferKeys o hm.rowsHeader hm.colsHeader hm.cellsHeader).valuesRowKey
        (inferKeys o hm.rowsHeader hm.colsHeader hm.cellsHeader).valuesColKey cv.length
        (pre ++ none :: post) (List.replicate (rv.length * cv.length) none) := by
      rw [fillLoop_append, fillLoop_append]
      simp only [fillLoop, List.foldl_cons]
      rw [fillCell_miss hmiss]
      rfl
    rw [hcv, hfill]

/-- Declared-mode options. -/
def exDeclO : DataOptions := ⟨true, true, none, none⟩

/-- Declared-mode input whose single cell record carries the row key
`"b"`, absent from the row axis table (which only holds `"a"`). -/
def exMissHm : Heatmap :=
  { rowsHeader := [some "R"], rowsValues := [[some "a"]],
    colsHeader := [some "C"], colsValues := [[some "c"]],
    cellsHeader := [some "R", some "C", some "x"],
    cellsValues := [some [some "b", some "c", some "9"]],
    ready := false }

/-- Witness for C2 at the concrete declared-mode input with an unresolved
row key. -/
theorem claim2_unresolved_record_dropped_witness :
    (∃ out, tsvRead exDeclO exMissHm = some out ∧ out.ready = true) ∧
    tsvRead exDeclO exMissHm
      = tsvRead exDeclO { exMissHm with cellsValues := [none] } :=
  claim2_unresolved_record_dropped exDeclO exMissHm [] []
    [some "b", some "c", some "9"] [("a", 0)] [("c", 0)]
    [[some "a"]] [[some "c"]] rfl rfl rfl rfl (Or.inl rfl)

end JHeatmap

namespace JHeatmap

/-! ### C4: overwrite semantics, the last resolving record wins -/

/-- Reference value for C4, following the claim's words: the last
cell-table record, in source order, that the two position indices resolve
to `(ri, ci)` — or the missing sentinel when no record resolves there. -/
def lastResolved (rh ch : Hash) (vrk vck : Option Nat) (ri ci : Nat) :
    List (Option Record) → Option Record
  | [] => none
  | none :: rest => lastResolved rh ch vrk vck ri ci rest
  | some v :: rest =>
    match lastResolved rh ch vrk vck ri ci rest with
    | some w => some w
    | none =>
      if hGet rh (jsStr (jsGet v vrk)) = some ri ∧ hGet ch (jsStr (jsGet v vck)) = some ci
      then some v else none

theorem fillLoop_get_last {rh ch : Hash} {vrk vck : Option Nat} {rl cl ri ci : Nat}
    (hrh : HashBnd rh rl) (hch : HashBnd ch cl) (hri : ri < rl) (hci : ci < cl) :
    ∀ (cs : List (Option Record)) (acc : List (Option Record)),
      acc.length = rl * cl →
      (fillLoop rh ch vrk vck cl cs acc).get? (ri * cl + ci)
        = match lastResolved rh ch vrk vck ri ci cs with
          | some w => some (some w)
          | none => acc.get? (ri * cl + ci)
  | [], acc, hacc => rfl
  | none :: rest, acc, hacc =>
    fillLoop_get_last hrh hch hri hci rest acc hacc
  | some v :: rest, acc, hacc => by
    have hstep := @fillLoop_get_last rh ch vrk vck rl cl ri ci hrh hch hri hci rest
      (fillCell rh ch vrk vck cl acc (some v)) (fillCell_length hrh hch hacc)
    show (fillLoop rh ch vrk vck cl rest (fillCell rh ch vrk vck cl acc (some v))).get?
        (ri * cl + ci) = _
    rw [hstep]
    cases hlast : lastResolved rh ch vrk vck ri ci rest with
    | some w => simp [lastResolved, hlast]
    | none =>
      simp only [lastResolved, hlast]
      cases hr : hGet rh (jsStr (jsGet v vrk)) with
      | none =>
        rw [fillCell_miss (Or.inl hr)]
        simp [hr]
      | some ri' =>
        cases hc : hGet ch (jsStr (jsGet v vck)) with
        | none =>
          rw [fillCell_miss (Or.inr hc)]
          simp [hr, hc]
        | some ci' =>
          have hri' : ri' < rl := hrh _ _ hr
          have hci' : ci' < cl := hch _ _ hc
          by_cases heq : ri' = ri ∧ ci' = ci
          · obtain ⟨rfl, rfl⟩ := heq
            simp only [fillCell, hr, hc]
            have hlt : ri' * cl + ci' < acc.length := by
              rw [hacc]; exact offset_lt hri' hci'
            rw [jsSetPad_get?_eq _ _ hlt]
            simp [hr, hc]
          · have hne : ri' * cl + ci' ≠ ri * cl + ci := by
              intro hcontra
              exact heq (offset_inj hci' hci hcontra)
            simp only [fillCell, hr, hc]
            have hlt : ri' * cl + ci' < acc.length := by
              rw [hacc]; exact offset_lt hri' hci'
            rw [jsSetPad_get?_ne _ _ hlt hne]
            have : ¬(some ri' = some ri ∧ some ci' = some ci) := by
              intro ⟨h1, h2⟩
              exact heq ⟨Option.some.inj h1, Option.some.inj h2⟩
            rw [if_neg this]

/-- C4. For every completed assembly, the value at linear offset
`ri * columnCount + ci` equals the last cell-table record, in source
order, that the indices resolve to position `(ri, ci)`; in particular,
of two records resolving to the same position the later one wins. -/
theorem claim4_last_record_wins (o : DataOptions) (hm out : Heatmap) (rh ch : Hash)
    (rv cv : List Record) (ri ci : Nat)
    (hidx : buildIndices o (inferKeys o hm.rowsHeader hm.colsHeader hm.cellsHeader) hm
      = some (rh, ch, rv, cv))
    (hout : tsvRead o hm = some out)
    (hri : ri < rowCount out) (hci : ci < columnCount out) :
    valueAt out ri ci
      = lastResolved rh ch
          (inferKeys o hm.rowsHeader hm.colsHeader hm.cellsHeader).valuesRowKey
          (inferKeys o hm.rowsHeader hm.colsHeader hm.cellsHeader).valuesColKey
          ri ci hm.cellsValues := by
  simp only [tsvRead] at hout
  rw [hidx] at hout
  simp only [Option.some.injEq] at hout
  subst hout
  simp only [rowCount, columnCount] at hri hci
  obtain ⟨hbr, hbc⟩ := buildIndices_bounded hidx
  simp only [valueAt, columnCount]
  rw [fillLoop_get_last hbr hbc hri hci hm.cellsValues _ (by simp)]
  cases hlast : lastResolved rh ch
      (inferKeys o hm.rowsHeader hm.colsHeader hm.cellsHeader).valuesRowKey
      (inferKeys o hm.rowsHeader hm.colsHeader hm.cellsHeader).valuesColKey
      ri ci hm.cellsValues with
  | some w => rfl
  | none =>
    cases hg : (List.replicate (rv.length * cv.length) (none : Option Record)).get?
        (ri * cv.length + ci) with
    | none => rfl
    | some x =>
      have hx := List.eq_of_mem_replicate (List.get?_mem hg)
      subst hx
      rfl

/-- Declared-mode input in which the two cell records resolve to the same
`(0, 0)` position; the second record carries the value `"NEW"`. -/
def exDupHm : Heatmap :=
  { rowsHeader := [some "R"], rowsValues := [[some "a"]],
    colsHeader := [some "C"], colsValues := [[some "c"]],
    cellsHeader := [some "R", some "C", some "x"],
    cellsValues := [some [some "a", some "c", some "OLD"],
                    some [some "a", some "c", some "NEW"]],
    ready := false }

/-- The assembled output for `exDupHm`. -/
def exDupOut : Heatmap :=
  { rowsHeader := [some "R"], rowsValues := [[some "a"]],
    colsHeader := [some "C"], colsValues := [[some "c"]],
    cellsHeader := [some "R", some "C", some "x"],
    cellsValues := [some [some "a", some "c", some "NEW"]],
    ready := true }

/-- Witness for C4: at the concrete duplicated-position input the
assembled value is the later record. -/
theorem claim4_last_record_wins_witness :
    valueAt exDupOut 0 0
      = lastResolved [("a", 0)] [("c", 0)]
          (inferKeys exDeclO exDupHm.rowsHeader exDupHm.colsHeader exDupHm.cellsHeader).valuesRowKey
          (inferKeys exDeclO exDupHm.rowsHeader exDupHm.colsHeader exDupHm.cellsHeader).valuesColKey
          0 0 exDupHm.cellsValues ∧
    valueAt exDupOut 0 0 = some [some "a", some "c", some "NEW"] :=
  ⟨claim4_last_record_wins exDeclO exDupHm exDupOut [("a", 0)] [("c", 0)]
      [[some "a"]] [[some "c"]] 0 0 rfl rfl (by decide) (by decide), rfl⟩

end JHeatmap

namespace JHeatmap

/-! ### C3: duplicate declared-annotation keys -/

/-- Reference value for the amended C3: the position of the **last** axis
record whose key field equals `k`. -/
def lastOcc (key : Option Nat) (k : String) : List Record → Option Nat
  | [] => none
  | r :: rs =>
    match lastOcc key k rs with
    | some j => some (j + 1)
    | none => if jsGet r key = some k then some 0 else none

theorem buildDeclaredHash_hGet (key : Option Nat) :
    ∀ (vs : List Record) (i : Nat) (h0 h : Hash),
      buildDeclaredHash key vs i h0 = some h →
      ∀ k, hGet h k
        = match lastOcc key k vs with
          | some j => some (i + j)
          | none => hGet h0 k
  | [], i, h0, h, hb, k => by
    simp only [buildDeclaredHash, Option.some.injEq] at hb
    subst hb
    rfl
  | r :: rs, i, h0, h, hb, k => by
    simp only [buildDeclaredHash] at hb
    cases hr : jsGet r key with
    | none => rw [hr] at hb; exact absurd hb (by simp)
    | some s =>
      rw [hr] at hb
      have hrec := buildDeclaredHash_hGet key rs (i + 1) (hPut h0 s i) h hb k
      rw [hrec]
      cases hlast : lastOcc key k rs with
      | some j =>
        simp only [lastOcc, hlast]
        congr 1
        omega
      | none =>
        simp only [lastOcc, hlast]
        rw [hGet_hPut]
        by_cases hk : k = s
        · subst hk
          rw [if_pos rfl, hr, if_pos rfl]
          simp
        · rw [if_neg hk, hr, if_neg]
          intro hc
          exact hk (Option.some.inj hc).symm

theorem lastOcc_key (key : Option Nat) (k : String) :
    ∀ (vs : List Record) (p : Nat), lastOcc key k vs = some p →
      jsGet (vs.getD p []) key = some k
  | [], p, h => by simp [lastOcc] at h
  | r :: rs, p, h => by
    simp only [lastOcc] at h
    cases hlast : lastOcc key k rs with
    | some j =>
      rw [hlast] at h
      dsimp only at h
      simp only [Option.some.injEq] at h
      subst h
      simpa using lastOcc_key key k rs j hlast
    | none =>
      rw [hlast] at h
      dsimp only at h
      by_cases hk : jsGet r key = some k
      · rw [if_pos hk] at h
        simp only [Option.some.injEq] at h
        subst h
        simpa using hk
      · rw [if_neg hk] at h
        exact absurd h (by simp)

/-- C3, counterexample: in declared mode, two axis records with the same
key `"k"` make the position index map `"k"` to position 1, the **last**
occurrence — not position 0, the first, as the claim states. -/
theorem claim3_first_occurrence_cex :
    buildDeclaredHash (some 0) [[some "k"], [some "k"]] 0 [] = some [("k", 1), ("k", 0)] ∧
    hGet [("k", 1), ("k", 0)] "k" = some 1 ∧
    hGet [("k", 1), ("k", 0)] "k" ≠ some 0 :=
  ⟨rfl, rfl, by decide⟩

/-- C3, amended. In declared-annotation mode a duplicated stringified
join-key maps to the position of its **last** occurrence in the axis
table (later assignments overwrite earlier ones); distinct indexed
positions still carry distinct keys, and the key stored at an indexed
position is the key field of the axis record there. -/
theorem claim3_last_occurrence_index (key : Option Nat) (vs : List Record) (h : Hash)
    (hb : buildDeclaredHash key vs 0 [] = some h) :
    (∀ k, hGet h k = lastOcc key k vs) ∧
    (∀ k p, hGet h k = some p → jsGet (vs.getD p []) key = some k) ∧
    (∀ k1 k2 p, hGet h k1 = some p → hGet h k2 = some p → k1 = k2) := by
  have hchar : ∀ k, hGet h k = lastOcc key k vs := by
    intro k
    have := buildDeclaredHash_hGet key vs 0 [] h hb k
    rw [this]
    cases hlast : lastOcc key k vs with
    | some j => simp
    | none => rfl
  refine ⟨hchar, ?_, ?_⟩
  · intro k p hk
    rw [hchar k] at hk
    exact lastOcc_key key k vs p hk
  · intro k1 k2 p h1 h2
    rw [hchar k1] at h1
    rw [hchar k2] at h2
    have e1 := lastOcc_key key k1 vs p h1
    have e2 := lastOcc_key key k2 vs p h2
    rw [e1] at e2
    exact Option.some.inj e2

/-- Witness for the amended C3 at the concrete duplicated-key axis table. -/
theorem claim3_last_occurrence_index_witness :
    hGet [("k", 1), ("k", 0)] "k" = lastOcc (some 0) "k" [[some "k"], [some "k"]] ∧
    lastOcc (some 0) "k" [[some "k"], [some "k"]] = some 1 := by
  have h := claim3_last_occurrence_index (some 0) [[some "k"], [some "k"]]
    [("k", 1), ("k", 0)] rfl
  exact ⟨h.1 "k", rfl⟩

end JHeatmap

namespace JHeatmap

/-! ### C5: declared-mode key inference picks the first admissible field -/

theorem inferDeclaredAux_sound (cells : List FieldVal) (s : Option Nat) :
    ∀ (hdr : List FieldVal) (i0 : Nat) (last : Option Nat) (i f : Nat),
      inferDeclaredAux cells s hdr i0 last = (some i, some f) →
      i0 ≤ i ∧ i - i0 < hdr.length ∧
      jsInArray (hdr.getD (i - i0) none) cells = some f ∧
      s ≠ some f ∧
      ∀ j, j < i - i0 → ∀ g, jsInArray (hdr.getD j none) cells = some g → s = some g
  | [], i0, last, i, f, h => by
    simp only [inferDeclaredAux, Prod.mk.injEq] at h
    exact absurd h.1 (by simp)
  | hd :: t, i0, last, i, f, h => by
    simp only [inferDeclaredAux] at h
    cases hv : jsInArray hd cells with
    | some v =>
      rw [hv] at h
      dsimp only at h
      by_cases hs : s = some v
      · rw [if_pos hs] at h
        obtain ⟨hle, hlt, harr, hne, hprior⟩ :=
          inferDeclaredAux_sound cells s t (i0 + 1) (some v) i f h
        have he : i - i0 = (i - (i0 + 1)) + 1 := by omega
        refine ⟨by omega, by simp only [List.length_cons]; omega, ?_, hne, ?_⟩
        · rw [he]
          simpa using harr
        · intro j hj g hg
          cases j with
          | zero =>
            simp only [List.getD_cons_zero] at hg
            rw [hv] at hg
            rw [hs]
            exact hg
          | succ j' =>
            rw [he] at hj
            refine hprior j' (by omega) g ?_
            simpa using hg
      · rw [if_neg hs] at h
        simp only [Prod.mk.injEq, Option.some.injEq] at h
        obtain ⟨h1, h2⟩ := h
        subst h1; subst h2
        refine ⟨Nat.le_refl _, ?_, ?_, hs, ?_⟩
        · simp
        · simpa using hv
        · intro j hj
          omega
    | none =>
      rw [hv] at h
      dsimp only at h
      obtain ⟨hle, hlt, harr, hne, hprior⟩ :=
        inferDeclaredAux_sound cells s t (i0 + 1) none i f h
      have he : i - i0 = (i - (i0 + 1)) + 1 := by omega
      refine ⟨by omega, by simp only [List.length_cons]; omega, ?_, hne, ?_⟩
      · rw [he]
        simpa using harr
      · intro j hj g hg
        cases j with
        | zero =>
          simp only [List.getD_cons_zero] at hg
          rw [hv] at hg
          exact absurd hg (by simp)
        | succ j' =>
          rw [he] at hj
          refine hprior j' (by omega) g ?_
          simpa using hg

theorem inferDeclaredAux_complete (cells : List FieldVal) (s : Option Nat) :
    ∀ (hdr : List FieldVal) (i0 : Nat) (last : Option Nat) (j g : Nat),
      j < hdr.length → jsInArray (hdr.getD j none) cells = some g → s ≠ some g →
      ∃ i f, inferDeclaredAux cells s hdr i0 last = (some i, some f)
  | [], i0, last, j, g, hj, _, _ => by simp at hj
  | hd :: t, i0, last, j, g, hj, hg, hs => by
    simp only [inferDeclaredAux]
    cases hv : jsInArray hd cells with
    | some v =>
      dsimp only
      by_cases hsv : s = some v
      · rw [if_pos hsv]
        cases j with
        | zero =>
          simp only [List.getD_cons_zero] at hg
          rw [hv] at hg
          exact absurd (hsv.trans hg) hs
        | succ j' =>
          exact inferDeclaredAux_complete cells s t (i0 + 1) (some v) j' g
            (by simpa using hj) (by simpa using hg) hs
      · rw [if_neg hsv]
        exact ⟨i0, v, rfl⟩
    | none =>
      dsimp only
      cases j with
      | zero =>
        simp only [List.getD_cons_zero] at hg
        rw [hv] at hg
        exact absurd hg (by simp)
      | succ j' =>
        exact inferDeclaredAux_complete cells s t (i0 + 1) none j' g
          (by simpa using hj) (by simpa using hg) hs

end JHeatmap

namespace JHeatmap

/-- C5. Declared-annotation mode, both axis tables supplied. Row axis: a
selected row key is the first axis-header field that occurs (by exact
match, `$.inArray`) in the cell header, every earlier field having no
occurrence; if any field occurs, a key is selected. Column axis: a
selected column key never reuses the cell-header index already matched as
the row key; it is the first axis-header field whose occurrence index
differs from the row key's (earlier fields either do not occur or occur
exactly at the row-key index); if any such field exists, a column key is
selected. -/
theorem claim5_declared_key_inference (o : DataOptions)
    (rowsHeader colsHeader cellsHeader : List FieldVal)
    (hrd : o.rowsDeclared = true) (hcd : o.colsDeclared = true) :
    (∀ i f, (inferKeys o rowsHeader colsHeader cellsHeader).rowKey = some i →
      (inferKeys o rowsHeader colsHeader cellsHeader).valuesRowKey = some f →
      i < rowsHeader.length ∧
      jsInArray (rowsHeader.getD i none) cellsHeader = some f ∧
      ∀ j, j < i → jsInArray (rowsHeader.getD j none) cellsHeader = none) ∧
    ((∃ j g, j < rowsHeader.length ∧ jsInArray (rowsHeader.getD j none) cellsHeader = some g) →
      ∃ i f, (inferKeys o rowsHeader colsHeader cellsHeader).rowKey = some i ∧
        (inferKeys o rowsHeader colsHeader cellsHeader).valuesRowKey = some f) ∧
    (∀ i f, (inferKeys o rowsHeader colsHeader cellsHeader).colKey = some i →
      (inferKeys o rowsHeader colsHeader cellsHeader).valuesColKey = some f →
      i < colsHeader.length ∧
      jsInArray (colsHeader.getD i none) cellsHeader = some f ∧
      (inferKeys o rowsHeader colsHeader cellsHeader).valuesRowKey ≠ some f ∧
      ∀ j, j < i → ∀ g, jsInArray (colsHeader.getD j none) cellsHeader = some g →
        (inferKeys o rowsHeader colsHeader cellsHeader).valuesRowKey = some g) ∧
    ((∃ j g, j < colsHeader.length ∧ jsInArray (colsHeader.getD j none) cellsHeader = some g ∧
        (inferKeys o rowsHeader colsHeader cellsHeader).valuesRowKey ≠ some g) →
      ∃ i f, (inferKeys o rowsHeader colsHeader cellsHeader).colKey = some i ∧
        (inferKeys o rowsHeader colsHeader cellsHeader).valuesColKey = some f) := by
  have hki : inferKeys o rowsHeader colsHeader cellsHeader
      = { rowKey := (inferDeclaredAux cellsHeader none rowsHeader 0 none).1,
          valuesRowKey := (inferDeclaredAux cellsHeader none rowsHeader 0 none).2,
          colKey := (inferDeclaredAux cellsHeader
            (inferDeclaredAux cellsHeader none rowsHeader 0 none).2 colsHeader 0 none).1,
          valuesColKey := (inferDeclaredAux cellsHeader
            (inferDeclaredAux cellsHeader none rowsHeader 0 none).2 colsHeader 0 none).2,
          rowsHeader := rowsHeader, colsHeader := colsHeader,
          cellsHeader := cellsHeader } := by
    simp [inferKeys, hrd, hcd]
  rw [hki]
  dsimp only
  refine ⟨?_, ?_, ?_, ?_⟩
  · intro i f h1 h2
    have hp : inferDeclaredAux cellsHeader none rowsHeader 0 none = (some i, some f) := by
      rw [← h1, ← h2]
    obtain ⟨_, hlt, harr, _, hprior⟩ :=
      inferDeclaredAux_sound cellsHeader none rowsHeader 0 none i f hp
    simp only [Nat.sub_zero] at hlt harr hprior
    refine ⟨hlt, harr, ?_⟩
    intro j hj
    cases hg : jsInArray (rowsHeader.getD j none) cellsHeader with
    | none => rfl
    | some g => exact absurd (hprior j hj g hg).symm (by simp)
  · rintro ⟨j, g, hj, hg⟩
    obtain ⟨i, f, hif⟩ :=
      inferDeclaredAux_complete cellsHeader none rowsHeader 0 none j g hj hg (by simp)
    exact ⟨i, f, by rw [hif], by rw [hif]⟩
  · intro i f h1 h2
    have hp : inferDeclaredAux cellsHeader
        (inferDeclaredAux cellsHeader none rowsHeader 0 none).2 colsHeader 0 none
        = (some i, some f) := by
      rw [← h1, ← h2]
    obtain ⟨_, hlt, harr, hne, hprior⟩ :=
      inferDeclaredAux_sound cellsHeader _ colsHeader 0 none i f hp
    simp only [Nat.sub_zero] at hlt harr hprior
    exact ⟨hlt, harr, hne, hprior⟩
  · rintro ⟨j, g, hj, hg, hne⟩
    obtain ⟨i, f, hif⟩ :=
      inferDeclaredAux_complete cellsHeader _ colsHeader 0 none j g hj hg hne
    exact ⟨i, f, by rw [hif], by rw [hif]⟩

/-- Both-declared options and headers in which the column axis header's
first field `"R"` is already matched as the row key. -/
def exSkipRows : List FieldVal := [some "R"]

/-- Column axis header for the C5 witness. -/
def exSkipCols : List FieldVal := [some "R", some "C"]

/-- Cell header for the C5 witness. -/
def exSkipCells : List FieldVal := [some "R", some "C", some "v"]

/-- Witness for C5: with both tables declared and the column header's first
field equal to the row key field, the column search skips it and selects
index 1, whose occurrence differs from the row key's. -/
theorem claim5_declared_key_inference_witness :
    (inferKeys exDeclO exSkipRows exSkipCols exSkipCells).valuesRowKey ≠ some 1 ∧
    jsInArray (exSkipCols.getD 1 none) exSkipCells = some 1 ∧
    (inferKeys exDeclO exSkipRows exSkipCols exSkipCells).colKey = some 1 := by
  have h := (claim5_declared_key_inference exDeclO exSkipRows exSkipCols exSkipCells
    rfl rfl).2.2.1 1 1 rfl rfl
  exact ⟨h.2.2.1, h.2.1, rfl⟩

end JHeatmap

namespace JHeatmap

/-! ### C6: failed key inference -/

/-- Declared-mode input whose row axis header `"X"` matches nothing in the
cell header, and whose row axis table has **no** records. -/
def exNoMatchEmptyHm : Heatmap :=
  { rowsHeader := [some "X"], rowsValues := [],
    colsHeader := [some "C"], colsValues := [[some "c"]],
    cellsHeader := [some "C", some "v"],
    cellsValues := [some [some "c", some "5"]],
    ready := false }

/-- C6, counterexample: in declared mode with no matching join field for
the row axis (row-key inference fails), assembly does **not** abort when
the axis table is empty — it completes and publishes `ready = true`, in
contradiction with the claim that a failed inference always aborts and
never publishes a matrix as ready. -/
theorem claim6_ready_despite_no_match_cex :
    (inferKeys exDeclO exNoMatchEmptyHm.rowsHeader exNoMatchEmptyHm.colsHeader
      exNoMatchEmptyHm.cellsHeader).rowKey = none ∧
    (tsvRead exDeclO exNoMatchEmptyHm).map Heatmap.ready = some true :=
  ⟨rfl, rfl⟩

/-- C6, amended. There is no `KeyInferenceError`: a failed declared-mode
row-key inference leaves the key `undefined`, and the failure only
surfaces later, in hash building, as a thrown TypeError
(`undefined.toString()`) — provided the axis table has at least one
record. In that case assembly does abort with no matrix published as
ready; with an empty axis table assembly completes normally (see the
counterexample). -/
theorem claim6_inference_failure_aborts (o : DataOptions) (hm : Heatmap)
    (hrd : o.rowsDeclared = true) (hcd : o.colsDeclared = true)
    (hfail : (inferKeys o hm.rowsHeader hm.colsHeader hm.cellsHeader).rowKey = none)
    (hne : hm.rowsValues ≠ []) :
    tsvRead o hm = none := by
  simp only [tsvRead]
  have hbuild : buildIndices o (inferKeys o hm.rowsHeader hm.colsHeader hm.cellsHeader) hm
      = none := by
    unfold buildIndices
    rw [hrd, hcd]
    simp only [Bool.and_self, if_true]
    cases hrv : hm.rowsValues with
    | nil => exact absurd hrv hne
    | cons r rs =>
      rw [hfail]
      rfl
  rw [hbuild]

/-- Declared-mode input like `exNoMatchEmptyHm` but with one row record:
hash building throws. -/
def exNoMatchHm : Heatmap :=
  { exNoMatchEmptyHm with rowsValues := [[some "k"]] }

/-- Witness for the amended C6: with a non-empty row table and no matching
join field, assembly aborts (`none`) and nothing is published. -/
theorem claim6_inference_failure_aborts_witness :
    tsvRead exDeclO exNoMatchHm = none :=
  claim6_inference_failure_aborts exDeclO exNoMatchHm rfl rfl rfl (by decide)

end JHeatmap

namespace JHeatmap

/-! ### C7: discovery-mode index building -/

/-- Dense position of a key in a first-seen key list. -/
def seenIdx (k : String) : List String → Option Nat
  | [] => none
  | x :: xs => if x = k then some 0 else (seenIdx k xs).map (· + 1)

theorem seenIdx_eq_none_iff (k : String) :
    ∀ l : List String, seenIdx k l = none ↔ k ∉ l
  | [] => by simp [seenIdx]
  | x :: xs => by
    simp only [seenIdx, List.mem_cons]
    by_cases hx : x = k
    · subst hx
      simp
    · rw [if_neg hx]
      rw [Option.map_eq_none', seenIdx_eq_none_iff k xs]
      constructor
      · intro hne h
        rcases h with h | h
        · exact hx h.symm
        · exact hne h
      · intro hni
        exact fun h => hni (Or.inr h)

theorem seenIdx_append (k x : String) :
    ∀ l : List String, seenIdx k (l ++ [x])
      = match seenIdx k l with
        | some j => some j
        | none => if x = k then some l.length else none
  | [] => by simp [seenIdx]
  | y :: ys => by
    have hc : (y :: ys) ++ [x] = y :: (ys ++ [x]) := rfl
    rw [hc]
    simp only [seenIdx]
    by_cases hy : y = k
    · rw [if_pos hy, if_pos hy]
    · rw [if_neg hy, if_neg hy, seenIdx_append k x ys]
      cases seenIdx k ys with
      | some j => rfl
      | none =>
        by_cases hx : x = k
        · rw [if_pos hx, if_pos hx]
          simp
        · rw [if_neg hx, if_neg hx]
          rfl

/-- Spec-side statement of C7, following the claim's words: scan the
cell-table records once, skipping every `null` record; a record whose
stringified row-key has not been seen before is assigned the next dense
row position — the keys seen so far, in first-seen order — and appends an
axis record built from the designated row fields; a record with an
already-seen key changes neither the key list nor the axis records;
symmetrically for columns, in the same single pass. -/
def discoverySpec (rowFields colFields : List (Option Nat)) (vrk vck : Option Nat) :
    List (Option Record) → List String → List String → List Record → List Record →
    Option (List String × List String × List Record × List Record)
  | [], rks, cks, rrs, crs => some (rks, cks, rrs, crs)
  | none :: rest, rks, cks, rrs, crs =>
    discoverySpec rowFields colFields vrk vck rest rks cks rrs crs
  | some v :: rest, rks, cks, rrs, crs =>
    match jsGet v vrk, jsGet v vck with
    | some rk, some ck =>
      let rp := if rk ∈ rks then (rks, rrs)
                else (rks ++ [rk], rrs ++ [rowFields.map (jsGet v)])
      let cp := if ck ∈ cks then (cks, crs)
                else (cks ++ [ck], crs ++ [colFields.map (jsGet v)])
      discoverySpec rowFields colFields vrk vck rest rp.1 cp.1 rp.2 cp.2
    | some _, none => none
    | none, _ => none

/-- The discovery state agrees with a pair of first-seen key lists. -/
def DiscRel (st : DiscSt) (rks cks : List String) : Prop :=
  st.rowsValues.length = rks.length ∧ st.colsValues.length = cks.length ∧
  (∀ k, hGet st.rowHash k = seenIdx k rks) ∧ (∀ k, hGet st.colHash k = seenIdx k cks)

theorem discRel_row_insert {st : DiscSt} {rks cks : List String} {rk : String}
    {rec : Record} (hrel : DiscRel st rks cks) (hnew : hGet st.rowHash rk = none) :
    DiscRel { st with rowHash := hPut st.rowHash rk st.rowsValues.length,
                      rowsValues := st.rowsValues ++ [rec] } (rks ++ [rk]) cks := by
  obtain ⟨hl1, hl2, hr, hc⟩ := hrel
  refine ⟨by simp [hl1], by simpa using hl2, ?_, by simpa using hc⟩
  intro k
  simp only
  rw [hGet_hPut, seenIdx_append]
  by_cases hk : k = rk
  · subst hk
    rw [if_pos rfl]
    have hsn : seenIdx k rks = none := by rw [← hr k]; exact hnew
    rw [hsn, if_pos rfl, hl1]
  · rw [if_neg hk, hr k]
    cases seenIdx k rks with
    | some j => rfl
    | none => rw [if_neg (fun hh => hk hh.symm)]

theorem discRel_col_insert {st : DiscSt} {rks cks : List String} {ck : String}
    {rec : Record} (hrel : DiscRel st rks cks) (hnew : hGet st.colHash ck = none) :
    DiscRel { st with colHash := hPut st.colHash ck st.colsValues.length,
                      colsValues := st.colsValues ++ [rec] } rks (cks ++ [ck]) := by
  obtain ⟨hl1, hl2, hr, hc⟩ := hrel
  refine ⟨by simpa using hl1, by simp [hl2], by simpa using hr, ?_⟩
  intro k
  simp only
  rw [hGet_hPut, seenIdx_append]
  by_cases hk : k = ck
  · subst hk
    rw [if_pos rfl]
    have hsn : seenIdx k cks = none := by rw [← hc k]; exact hnew
    rw [hsn, if_pos rfl, hl2]
  · rw [if_neg hk, hc k]
    cases seenIdx k cks with
    | some j => rfl
    | none => rw [if_neg (fun hh => hk hh.symm)]

theorem discLoop_spec (rowAnn colAnn : Option (List Nat)) (vrk vck : Option Nat) :
    ∀ (cs : List (Option Record)) (st st' : DiscSt) (rks cks : List String),
      DiscRel st rks cks →
      discLoop rowAnn colAnn vrk vck cs st = some st' →
      ∃ rks' cks',
        discoverySpec (annIndices rowAnn vrk) (annIndices colAnn vck) vrk vck cs
          rks cks st.rowsValues st.colsValues
          = some (rks', cks', st'.rowsValues, st'.colsValues) ∧
        DiscRel st' rks' cks'
  | [], st, st', rks, cks, hrel, h => by
    simp only [discLoop, Option.some.injEq] at h
    subst h
    exact ⟨rks, cks, rfl, hrel⟩
  | none :: rest, st, st', rks, cks, hrel, h => by
    simp only [discLoop] at h
    simpa [discoverySpec] using discLoop_spec rowAnn colAnn vrk vck rest st st' rks cks hrel h
  | some v :: rest, st, st', rks, cks, hrel, h => by
    simp only [discLoop] at h
    cases hrec : discRecord rowAnn colAnn vrk vck st v with
    | none => rw [hrec] at h; exact absurd h (by simp)
    | some st2 =>
      rw [hrec] at h
      dsimp only at h
      unfold discRecord at hrec
      cases hrk : jsGet v vrk with
      | none => rw [hrk] at hrec; exact absurd hrec (by simp)
      | some rk =>
        rw [hrk] at hrec
        dsimp only at hrec
        cases hck : jsGet v vck with
        | none =>
          rw [hck] at hrec
          dsimp only at hrec
          exact absurd hrec (by simp)
        | some ck =>
          rw [hck] at hrec
          dsimp only at hrec
          simp only [discoverySpec, hrk, hck]
          by_cases hrow : hGet st.rowHash rk = none
          · rw [if_pos hrow] at hrec
            dsimp only at hrec
            have hnotmem : rk ∉ rks := by
              rw [← seenIdx_eq_none_iff, ← hrel.2.2.1 rk]
              exact hrow
            rw [if_neg hnotmem]
            have hrel1 := @discRel_row_insert st rks cks rk
              ((annIndices rowAnn vrk).map (jsGet v)) hrel hrow
            by_cases hcol : hGet st.colHash ck = none
            · rw [if_pos hcol] at hrec
              simp only [Option.some.injEq] at hrec
              subst hrec
              have hnotmemc : ck ∉ cks := by
                rw [← seenIdx_eq_none_iff, ← hrel.2.2.2 ck]
                exact hcol
              rw [if_neg hnotmemc]
              have hrel2 := @discRel_col_insert
                { st with rowHash := hPut st.rowHash rk st.rowsValues.length,
                          rowsValues := st.rowsValues
                            ++ [(annIndices rowAnn vrk).map (jsGet v)] }
                (rks ++ [rk]) cks ck ((annIndices colAnn vck).map (jsGet v)) hrel1 hcol
              have hres := discLoop_spec rowAnn colAnn vrk vck rest _ st' _ _ hrel2 h
              simpa using hres
            · rw [if_neg hcol] at hrec
              simp only [Option.some.injEq] at hrec
              subst hrec
              have hmemc : ck ∈ cks := by
                by_contra hmc
                rw [← seenIdx_eq_none_iff, ← hrel.2.2.2 ck] at hmc
                exact hcol hmc
              rw [if_pos hmemc]
              have hres := discLoop_spec rowAnn colAnn vrk vck rest _ st' _ _ hrel1 h
              simpa using hres
          · rw [if_neg hrow] at hrec
            have hmem : rk ∈ rks := by
              by_contra hmr
              rw [← seenIdx_eq_none_iff, ← hrel.2.2.1 rk] at hmr
              exact hrow hmr
            rw [if_pos hmem]
            by_cases hcol : hGet st.colHash ck = none
            · rw [if_pos hcol] at hrec
              simp only [Option.some.injEq] at hrec
              subst hrec
              have hnotmemc : ck ∉ cks := by
                rw [← seenIdx_eq_none_iff, ← hrel.2.2.2 ck]
                exact hcol
              rw [if_neg hnotmemc]
              have hrel2 := @discRel_col_insert st rks cks ck
                ((annIndices colAnn vck).map (jsGet v)) hrel hcol
              have hres := discLoop_spec rowAnn colAnn vrk vck rest _ st' _ _ hrel2 h
              simpa using hres
            · rw [if_neg hcol] at hrec
              simp only [Option.some.injEq] at hrec
              subst hrec
              have hmemc : ck ∈ cks := by
                by_contra hmc
                rw [← seenIdx_eq_none_iff, ← hrel.2.2.2 ck] at hmc
                exact hcol hmc
              rw [if_pos hmemc]
              have hres := discLoop_spec rowAnn colAnn vrk vck rest st st' rks cks hrel h
              simpa using hres

end JHeatmap

namespace JHeatmap

/-- C7. Discovery-mode index building is one linear scan of the cell-table
records that skips every `null` record: against the claim's reference
recursion `discoverySpec` (first-seen key lists with dense positions and
per-key appended axis records built from the designated fields), the
engine's pass produces exactly the spec's axis record lists, and each hash
maps a key to its dense first-seen position (`seenIdx`), so an already-seen
key changes neither index. -/
theorem claim7_discovery_index_building (rowAnn colAnn : Option (List Nat))
    (vrk vck : Option Nat) (cs : List (Option Record)) (st' : DiscSt)
    (rks cks : List String) (rrs crs : List Record)
    (h : discLoop rowAnn colAnn vrk vck cs ⟨[], [], [], []⟩ = some st')
    (hs : discoverySpec (annIndices rowAnn vrk) (annIndices colAnn vck) vrk vck cs
      [] [] [] [] = some (rks, cks, rrs, crs)) :
    st'.rowsValues = rrs ∧ st'.colsValues = crs ∧
    st'.rowsValues.length = rks.length ∧ st'.colsValues.length = cks.length ∧
    (∀ k, hGet st'.rowHash k = seenIdx k rks) ∧
    (∀ k, hGet st'.colHash k = seenIdx k cks) := by
  have hinit : DiscRel ⟨[], [], [], []⟩ [] [] :=
    ⟨rfl, rfl, fun k => rfl, fun k => rfl⟩
  obtain ⟨rks', cks', hspec, hrel⟩ :=
    discLoop_spec rowAnn colAnn vrk vck cs ⟨[], [], [], []⟩ st' [] [] hinit h
  rw [hs] at hspec
  simp only [Option.some.injEq, Prod.mk.injEq] at hspec
  obtain ⟨h1, h2, h3, h4⟩ := hspec
  subst h1; subst h2
  exact ⟨h3.symm, h4.symm, hrel.1, hrel.2.1, hrel.2.2.1, hrel.2.2.2⟩

/-- The cell records of `exDiscHm`. -/
def exDiscCells : List (Option Record) :=
  [some [some "c1", some "r1", some "5"],
   some [some "c1", some "r2", some "6"],
   some [some "c2", some "r1", some "7"]]

/-- The discovery state after scanning `exDiscCells` with the default keys
(`valuesRowKey = 1`, `valuesColKey = 0`). -/
def exDiscSt : DiscSt :=
  { rowHash := [("r2", 1), ("r1", 0)], colHash := [("c2", 1), ("c1", 0)],
    rowsValues := [[some "r1"], [some "r2"]],
    colsValues := [[some "c1"], [some "c2"]] }

/-- Witness for C7 at the concrete discovery scan: the row hash agrees with
the first-seen dense index and the axis records are the spec's. -/
theorem claim7_discovery_index_building_witness :
    hGet exDiscSt.rowHash "r2" = seenIdx "r2" ["r1", "r2"] ∧
    hGet exDiscSt.colHash "c2" = seenIdx "c2" ["c1", "c2"] ∧
    exDiscSt.rowsValues = [[some "r1"], [some "r2"]] := by
  have h := claim7_discovery_index_building none none (some 1) (some 0)
    exDiscCells exDiscSt ["r1", "r2"] ["c1", "c2"]
    [[some "r1"], [some "r2"]] [[some "c1"], [some "c2"]] rfl rfl
  exact ⟨h.2.2.2.2.1 "r2", h.2.2.2.2.2 "c2", h.1⟩

end JHeatmap

namespace JHeatmap

/-! ### C8 and C10: the wide-format variant -/

theorem cdmLoop_extends (cl : Nat) :
    ∀ (cs : List (Option Record)) (rv : List Record) (cells : List (Option Record))
      (rv' : List Record) (cells' : List (Option Record)),
      cdmLoop cl cs rv cells = some (rv', cells') →
      ∃ t u, rv' = rv ++ t ∧ cells' = cells ++ u
  | [], rv, cells, rv', cells', h => by
    simp only [cdmLoop, Option.some.injEq, Prod.mk.injEq] at h
    exact ⟨[], [], by simp [h.1.symm], by simp [h.2.symm]⟩
  | none :: rest, rv, cells, rv', cells', h => by
    exact absurd h (by simp [cdmLoop])
  | some r :: rest, rv, cells, rv', cells', h => by
    simp only [cdmLoop] at h
    obtain ⟨t, u, ht, hu⟩ := cdmLoop_extends cl rest _ _ rv' cells' h
    exact ⟨[jsGetAt r 0] :: t, _ ++ u, by simpa using ht, by simpa using hu⟩

theorem cdmLoop_spec (cl : Nat) :
    ∀ (cs : List (Option Record)) (rv : List Record) (cells : List (Option Record))
      (rv' : List Record) (cells' : List (Option Record)),
      cdmLoop cl cs rv cells = some (rv', cells') →
      rv'.length = rv.length + cs.length ∧
      cells'.length = cells.length + cs.length * cl ∧
      ∀ r v, cs.get? r = some (some v) → ∀ j, j < cl →
        cells'.get? (cells.length + (r * cl + j)) = some (some [jsGet v (some (j + 1))])
  | [], rv, cells, rv', cells', h => by
    simp only [cdmLoop, Option.some.injEq, Prod.mk.injEq] at h
    obtain ⟨h1, h2⟩ := h
    subst h1; subst h2
    refine ⟨by simp, by simp, ?_⟩
    intro r v hr
    simp at hr
  | none :: rest, rv, cells, rv', cells', h => by
    exact absurd h (by simp [cdmLoop])
  | some r0 :: rest, rv, cells, rv', cells', h => by
    simp only [cdmLoop] at h
    obtain ⟨hrv, hcl, hget⟩ := cdmLoop_spec cl rest _ _ rv' cells' h
    refine ⟨?_, ?_, ?_⟩
    · simp only [List.length_append, List.length_singleton, List.length_cons,
        List.length_nil] at hrv ⊢
      omega
    · simp only [List.length_append, List.length_map, List.length_range,
        List.length_cons] at hcl ⊢
      rw [hcl]
      ring
    · intro r v hr j hj
      cases r with
      | zero =>
        simp only [List.get?_cons_zero, Option.some.injEq] at hr
        have hv : v = r0 := hr.symm
        subst hv
        obtain ⟨t, u, _, hu⟩ := cdmLoop_extends cl rest _ _ rv' cells' h
        rw [hu, List.append_assoc]
        have hz : 0 * cl + j = j := by omega
        rw [hz]
        rw [List.get?_append_right (by omega)]
        have hz2 : cells.length + j - cells.length = j := by omega
        rw [hz2]
        have hblock : j < ((List.range cl).map
            (fun col => (some [jsGet v (some (col + 1))] : Option Record))).length := by
          simpa using hj
        rw [List.get?_append hblock]
        rw [List.get?_map, List.get?_range hj]
        rfl
      | succ r' =>
        have hr' : rest.get? r' = some (some v) := by simpa using hr
        have hres := hget r' v hr' j hj
        have hidx : cells.length + ((r' + 1) * cl + j)
            = (cells ++ (List.range cl).map
                (fun col => (some [jsGet r0 (some (col + 1))] : Option Record))).length
              + (r' * cl + j) := by
          simp only [List.length_append, List.length_map, List.length_range]
          have hm : (r' + 1) * cl = r' * cl + cl := by ring
          omega
        rw [hidx]
        exact hres

/-- C10 amended. In the wide-format variant no record is dropped: every
record of the cell table — whether or not its field count matches the cell
header's — contributes exactly one row-axis record and `columnCount` dense
entries; a field index beyond the record's length contributes an entry
wrapping the `undefined` marker rather than being skipped. (No drop
counter exists anywhere in the output.) -/
theorem claim10_every_record_contributes (hm out : Heatmap)
    (h : cdmRead hm = some out) :
    out.rowsValues.length = hm.rowsValues.length + hm.cellsValues.length ∧
    out.cellsValues.length = hm.cellsValues.length * columnCount out ∧
    ∀ r v, hm.cellsValues.get? r = some (some v) →
      ∀ j, j < columnCount out →
        out.cellsValues.get? (r * columnCount out + j)
          = some (some [jsGet v (some (j + 1))]) := by
  simp only [cdmRead] at h
  cases hl : cdmLoop (hm.colsValues ++ hm.cellsHeader.map (fun f => ([f] : Record))).length
      hm.cellsValues hm.rowsValues [] with
  | none => rw [hl] at h; exact absurd h (by simp)
  | some q =>
    obtain ⟨rv, cells⟩ := q
    rw [hl] at h
    simp only [Option.some.injEq] at h
    subst h
    obtain ⟨h1, h2, h3⟩ := cdmLoop_spec _ hm.cellsValues hm.rowsValues [] rv cells hl
    refine ⟨h1, ?_, ?_⟩
    · simpa [columnCount] using h2
    · intro r v hr j hj
      simp only [columnCount] at hj ⊢
      simpa using h3 r v hr j hj

/-- The wide-format input of the claim: header `["Row","col1","col2"]` and
two records. -/
def exCdmHm : Heatmap :=
  { rowsHeader := [], rowsValues := [], colsHeader := [], colsValues := [],
    cellsHeader := [some "Row", some "col1", some "col2"],
    cellsValues := [some [some "r1", some "0.11", some "0.12"],
                    some [some "r2", some "0.21", some "0.22"]],
    ready := false }

/-- The assembled wide-format output for `exCdmHm`. -/
def exCdmOut : Heatmap :=
  { rowsHeader := [some "Row"], rowsValues := [[some "r1"], [some "r2"]],
    colsHeader := [some "Column"],
    colsValues := [[some "Row"], [some "col1"], [some "col2"]],
    cellsHeader := [some "Value"],
    cellsValues := [some [some "0.11"], some [some "0.12"], some [none],
                    some [some "0.21"], some [some "0.22"], some [none]],
    ready := true }

/-- C8, counterexample: on the claim's input the wide-format variant makes
a column out of **every** cell-header field, including the leading label
field `"Row"`: `columnCount` is 3, not 2, and `colKeyAt(0)` is `"Row"`,
not `"col1"`. -/
theorem claim8_wide_format_shape_cex :
    cdmRead exCdmHm = some exCdmOut ∧
    columnCount exCdmOut ≠ 2 ∧
    exCdmOut.colsValues.getD 0 [] ≠ [some "col1"] :=
  ⟨rfl, by decide, by decide⟩

/-- C8, amended. The wide-format variant produces the literal headers
`["Row"]`, `["Column"]`, `["Value"]`; on the input with header
`["Row","col1","col2"]` and records `r1`/`r2` it yields `rowCount = 2`
but `columnCount = 3` — one column per header field, the first being the
label field `"Row"` itself, with `colKeyAt(1) = "col1"`; the value at
`(1, 0)` is the record wrapping `"0.21"`. -/
theorem claim8_wide_format_shape :
    cdmRead exCdmHm = some exCdmOut ∧
    exCdmOut.rowsHeader = [some "Row"] ∧
    exCdmOut.colsHeader = [some "Column"] ∧
    exCdmOut.cellsHeader = [some "Value"] ∧
    rowCount exCdmOut = 2 ∧
    columnCount exCdmOut = 3 ∧
    exCdmOut.colsValues.getD 0 [] = [some "Row"] ∧
    exCdmOut.colsValues.getD 1 [] = [some "col1"] ∧
    valueAt exCdmOut 1 0 = some [some "0.21"] :=
  ⟨rfl, rfl, rfl, rfl, rfl, rfl, rfl, rfl, rfl⟩

/-- Wide-format input with a record one field short of the header. -/
def exShortHm : Heatmap :=
  { rowsHeader := [], rowsValues := [], colsHeader := [], colsValues := [],
    cellsHeader := [some "Row", some "c1"],
    cellsValues := [some [some "r1"]],
    ready := false }

/-- The assembled output for `exShortHm`. -/
def exShortOut : Heatmap :=
  { rowsHeader := [some "Row"], rowsValues := [[some "r1"]],
    colsHeader := [some "Column"], colsValues := [[some "Row"], [some "c1"]],
    cellsHeader := [some "Value"],
    cellsValues := [some [none], some [none]],
    ready := true }

/-- C10, counterexample: a record whose field count (1) does not match the
cell header's (2) is **not** dropped — it still contributes a row-axis
record and two dense entries (each wrapping `undefined`), and no drop
count exists in the output. -/
theorem claim10_mismatch_not_dropped_cex :
    cdmRead exShortHm = some exShortOut ∧
    exShortOut.rowsValues.length = 1 ∧
    exShortOut.cellsValues = [some [none], some [none]] :=
  ⟨rfl, rfl, rfl⟩

/-- Witness for the amended C10 at the short-record input. -/
theorem claim10_every_record_contributes_witness :
    exShortOut.rowsValues.length = exShortHm.rowsValues.length
      + exShortHm.cellsValues.length ∧
    exShortOut.cellsValues.length
      = exShortHm.cellsValues.length * columnCount exShortOut := by
  have h := claim10_every_record_contributes exShortHm exShortOut rfl
  exact ⟨h.1, h.2.1⟩

/-! ### C9: discovery-mode default key positions -/

/-- C9. Discovery mode with no configured annotation index lists: the row
join key is cell-table field index 1 and the column join key is field
index 0, and in each case that single cell-header field becomes the sole
axis header. -/
theorem claim9_discovery_default_keys (o : DataOptions)
    (rowsHeader colsHeader cellsHeader : List FieldVal)
    (h1 : o.rowsDeclared = false) (h2 : o.colsDeclared = false)
    (h3 : o.rowsAnnIdx = none) (h4 : o.colsAnnIdx = none) :
    (inferKeys o rowsHeader colsHeader cellsHeader).valuesRowKey = some 1 ∧
    (inferKeys o rowsHeader colsHeader cellsHeader).valuesColKey = some 0 ∧
    (inferKeys o rowsHeader colsHeader cellsHeader).rowsHeader
      = [jsGetAt cellsHeader 1] ∧
    (inferKeys o rowsHeader colsHeader cellsHeader).colsHeader
      = [jsGetAt cellsHeader 0] := by
  simp [inferKeys, h1, h2, h3, h4]

/-- Witness for C9 at the concrete discovery input. -/
theorem claim9_discovery_default_keys_witness :
    (inferKeys exDiscO exDiscHm.rowsHeader exDiscHm.colsHeader
      exDiscHm.cellsHeader).valuesRowKey = some 1 ∧
    (inferKeys exDiscO exDiscHm.rowsHeader exDiscHm.colsHeader
      exDiscHm.cellsHeader).rowsHeader = [some "r"] := by
  have h := claim9_discovery_default_keys exDiscO exDiscHm.rowsHeader
    exDiscHm.colsHeader exDiscHm.cellsHeader rfl rfl rfl rfl
  exact ⟨h.1, h.2.2.1.trans rfl⟩

end JHeatmap
